import Mathlib

/-!
Shallow embedding of the turn/stream orchestration core of this gemini-cli
fork, together with its OpenAI content-generator token counter.

Strings are modelled as lists of characters (`Str`); the JavaScript string
operations of the source map to list operations: `startsWith` to
`List.isPrefixOf`, `substring i` to `take`/`drop`, `endsWith` on a single
character to `getLast?`, `slice (-10)` to `drop (length - 10)`.

The embedded pieces, in order:
  * the content reassembler `handleContentEvent` of
    `packages/cli/src/ui/hooks/useGeminiStream.ts` (lines 365-483), its
    buffer-apply step `applyFragment` and the fold `runContent` over one
    assistant message;
  * the stream event dispatcher `processGeminiStreamEvents`
    (lines 624-753) with its per-turn event-identity deduplication;
  * the tool-result submission tracker: the `onComplete` callback of
    `useReactToolScheduler` (lines 111-144) and `handleCompletedTools`
    (lines 882-1039), modelled as a small labelled transition system whose
    events are settled-batch arrivals, completion of an awaited
    continuation, and firing of the deferred `setTimeout` re-entry;
  * the checkpoint record and file name built by `saveRestorableToolCalls`
    (lines 1115-1144);
  * `OpenAIContentGenerator.countTokens` (the OpenAI adapter, lines
    185-212).
-/

namespace GeminiCLI

abbrev Str := List Char

inductive PendingKind
  | gemini
  | geminiContent
  | other
deriving DecidableEq

/-- A pending (not yet committed) transcript item: the `type` / `text`
pair of `HistoryItemWithoutId` held in `pendingHistoryItemRef`. Kinds
other than `gemini` / `gemini_content` (tool groups, user messages, ...)
are collapsed into `other`; only their flush behaviour matters here. -/
structure PendingItem where
  kind : PendingKind
  text : Str
deriving DecidableEq

/-- Buffer-apply step of `handleContentEvent` (useGeminiStream.ts lines
387-406): an empty fragment leaves the buffer unchanged; a fragment that
starts with the current buffer replaces it (the server is treated as
sending the full accumulated content); otherwise the fragment is appended
as an incremental delta. -/
def applyFragment (buffer eventValue : Str) : Str :=
  if eventValue = [] then buffer
  else if buffer.isPrefixOf eventValue then eventValue
  else buffer ++ eventValue

/-- Modelled from the spec: `findLastSafeSplitPoint` from
`ui/utils/markdownUtilities.ts` is imported by the reassembler but its
source is not part of this snapshot. Per the spec it returns a safe split
position (text before it may be rendered statically, text after it stays
open): here, the position just after the last paragraph break (two
consecutive newline characters); when no break exists, the content length
(no split). -/
def findLastSafeSplitPoint (s : Str) : Nat :=
  let breaks := (List.range s.length).filter
    (fun p => decide (s[p]? = some '\n') && decide (s[p + 1]? = some '\n'))
  match breaks.getLast? with
  | some p => p + 2
  | none => s.length

/-- Lines 418-429 of `handleContentEvent`: when the held pending item is
not a `gemini` / `gemini_content` item, it is flushed to the transcript
(when present) and replaced by a fresh empty `gemini` item. Returns the
pending item in effect afterwards, the transcript appends made, and the
number of `setPendingHistoryItem` calls. -/
def flushNonGemini (pending : Option PendingItem) : PendingItem × List PendingItem × Nat :=
  match pending with
  | some p =>
      if p.kind = PendingKind.gemini ∨ p.kind = PendingKind.geminiContent then (p, [], 0)
      else (⟨PendingKind.gemini, []⟩, [p], 1)
  | none => (⟨PendingKind.gemini, []⟩, [], 1)

/-- Line 442-444: the buffer ends with a word or sentence boundary
character. -/
def endsWithBoundary (s : Str) : Bool :=
  s.getLast? = some ' ' ∨ s.getLast? = some '.' ∨
    s.getLast? = some '!' ∨ s.getLast? = some '?'

/-- Lines 436-444: the throttling test deciding whether the in-place
pending update is emitted. -/
def shouldUpdatePending (currentText newBuffer : Str) : Bool :=
  currentText ≠ newBuffer ∧
    ((newBuffer.length : Int) - (currentText.length : Int) > 5 ∨
      endsWithBoundary newBuffer = true)

/-- Observable outcome of one `handleContentEvent` call: the returned
buffer, the pending item afterwards, the transcript items appended via
`addItem`, and the number of `setPendingHistoryItem` calls. -/
structure ContentResult where
  buffer : Str
  pending : Option PendingItem
  added : List PendingItem
  pendingSets : Nat
deriving DecidableEq

/-- `handleContentEvent` (useGeminiStream.ts lines 365-483). A cancelled
turn returns an empty buffer with no emission; an empty fragment is a
no-op; a computed buffer identical to the prior one suppresses all
emission; otherwise a non-gemini pending item is flushed, and the buffer
either updates the pending item in place (split point at the end, subject
to the `shouldUpdate` throttle) or is split into a committed prefix and an
open remainder. -/
def handleContentEvent (split : Str → Nat) (cancelled : Bool)
    (eventValue buffer : Str) (pending : Option PendingItem) : ContentResult :=
  if cancelled then ⟨[], pending, [], 0⟩
  else if eventValue = [] then ⟨buffer, pending, [], 0⟩
  else
    let newBuffer := applyFragment buffer eventValue
    if newBuffer = buffer then ⟨buffer, pending, [], 0⟩
    else
      let fl := flushNonGemini pending
      let splitPoint := split newBuffer
      if splitPoint = newBuffer.length then
        if shouldUpdatePending fl.1.text newBuffer then
          ⟨newBuffer, some ⟨fl.1.kind, newBuffer⟩, fl.2.1, fl.2.2 + 1⟩
        else
          ⟨newBuffer, some fl.1, fl.2.1, fl.2.2⟩
      else
        let beforeText := newBuffer.take splitPoint
        let afterText := newBuffer.drop splitPoint
        let added2 :=
          if beforeText ≠ [] ∧ beforeText ≠ fl.1.text
          then fl.2.1 ++ [⟨fl.1.kind, beforeText⟩]
          else fl.2.1
        ⟨afterText, some ⟨PendingKind.geminiContent, afterText⟩, added2, fl.2.2 + 1⟩

/-- State of one assistant message threaded through the dispatcher loop:
the open buffer (`geminiMessageBuffer`), the pending item, and the content
items committed to the transcript so far. -/
structure TurnContent where
  buffer : Str
  pending : Option PendingItem
  added : List PendingItem
deriving DecidableEq

def stepContent (split : Str → Nat) (st : TurnContent) (frag : Str) : TurnContent :=
  let r := handleContentEvent split false frag st.buffer st.pending
  ⟨r.buffer, r.pending, st.added ++ r.added⟩

def runContent (split : Str → Nat) (st : TurnContent) (frags : List Str) : TurnContent :=
  frags.foldl (stepContent split) st

def initContent : TurnContent := ⟨[], none, []⟩

/-- Concatenation of the content committed to the transcript by splits. -/
def committedText (st : TurnContent) : Str :=
  (st.added.map PendingItem.text).flatten

/-- The committed splits together with the open buffer. -/
def reconstruct (st : TurnContent) : Str :=
  committedText st ++ st.buffer

/-- A content fragment tagged with its intended delivery mode: a pure
incremental delta, or a full-accumulated snapshot. -/
inductive Frag
  | delta (s : Str)
  | snapshot (s : Str)
deriving DecidableEq

def Frag.payload : Frag → Str
  | .delta s => s
  | .snapshot s => s

def intendedStep (t : Str) : Frag → Str
  | .delta s => t ++ s
  | .snapshot s => s

/-- The text a sequence of tagged fragments intends to deliver. -/
def intendedText (t : Str) : List Frag → Str
  | [] => t
  | f :: fs => intendedText (intendedStep t f) fs

/-- The split step of `handleContentEvent` loses no committed text on this
fragment: either no split occurs, or the committed prefix is empty, or it
differs from the pending item's displayed text (the guard on line 466
skips the transcript append when they coincide). -/
def splitSafe (split : Str → Nat) (buffer : Str)
    (pending : Option PendingItem) (s : Str) : Bool :=
  if s = [] then true
  else
    let newBuffer := applyFragment buffer s
    if newBuffer = buffer then true
    else
      let sp := split newBuffer
      decide (sp = newBuffer.length) || decide (newBuffer.take sp = []) ||
        decide (newBuffer.take sp ≠ (flushNonGemini pending).1.text)

/-- Delivery discipline under which one fragment is applied the way it was
intended: a delta must not be mistaken for a snapshot by the prefix test
(unless the buffer is empty, where both coincide), a snapshot must arrive
while nothing is committed and must extend the open buffer, and the split
step must not drop committed text. -/
def okStepB (split : Str → Nat) (st : TurnContent) : Frag → Bool
  | .delta s =>
      (decide (s = []) || !(st.buffer.isPrefixOf s) || decide (st.buffer = [])) &&
        splitSafe split st.buffer st.pending s
  | .snapshot s =>
      decide (committedText st = []) && st.buffer.isPrefixOf s &&
        splitSafe split st.buffer st.pending s

def okRunB (split : Str → Nat) (st : TurnContent) : List Frag → Bool
  | [] => true
  | f :: fs => okStepB split st f && okRunB split (stepContent split st f.payload) fs

/-- In a run over one assistant message the held pending item, when
present, is a `gemini` / `gemini_content` item (the reassembler itself
only ever installs those). -/
def pendingOk : Option PendingItem → Prop
  | none => True
  | some p => p.kind = PendingKind.gemini ∨ p.kind = PendingKind.geminiContent

/-! ## Stream event dispatcher (`processGeminiStreamEvents`, lines 624-753) -/

/-- The `FinishReason` values of `@google/genai` as used by
`handleFinishedEvent` (lines 544-582). -/
inductive FinishReason
  | unspecified
  | stop
  | maxTokens
  | safety
  | recitation
  | language
  | blocklist
  | prohibitedContent
  | spii
  | other
  | malformedFunctionCall
  | imageSafety
  | unexpectedToolCall
deriving DecidableEq

/-- The `finishReasonMessages` table of `handleFinishedEvent` (lines
548-568): normal stop reasons are silent, abnormal ones produce a notice. -/
def finishReasonMessages : FinishReason → Option String
  | .unspecified => none
  | .stop => none
  | .maxTokens => some "Response truncated due to token limits."
  | .safety => some "Response stopped due to safety reasons."
  | .recitation => some "Response stopped due to recitation policy."
  | .language => some "Response stopped due to unsupported language."
  | .blocklist => some "Response stopped due to forbidden terms."
  | .prohibitedContent => some "Response stopped due to prohibited content."
  | .spii => some "Response stopped due to sensitive personally identifiable information."
  | .other => some "Response stopped for other reasons."
  | .malformedFunctionCall => some "Response stopped due to malformed function call."
  | .imageSafety => some "Response stopped due to image safety violations."
  | .unexpectedToolCall => some "Response stopped due to unexpected tool call."

/-- A model-initiated tool call request (`ToolCallRequestInfo`), reduced
to the fields the dispatcher consults. -/
structure ToolCallRequestInfo where
  callId : Nat
  name : String
deriving DecidableEq

/-- A stream event (`ServerGeminiStreamEvent`). Event payloads are
reduced to what the dispatcher reads from them; error formatting and the
chat-compression notice text are collaborator-built, so those entries
carry their inputs. -/
inductive GEvent
  | thought (summary : String)
  | content (value : Str)
  | toolCallRequest (req : ToolCallRequestInfo)
  | userCancelled
  | errorEvent (message : String)
  | chatCompressed (originalTokenCount newTokenCount : Option Nat)
  | toolCallConfirmation
  | toolCallResponse
  | maxSessionTurns
  | finished (reason : FinishReason)
  | loopDetected
deriving DecidableEq

/-- The computed identity of a stream event (lines 652-655): Content
events get a content-based identity (length plus the last ten
characters); all other events get a generation-based identity, modelled
as a stamp drawn from a monotone counter (`Date.now()` / `Math.random()`
produce a fresh value per event). -/
inductive EventId
  | contentId (length : Nat) (tail : Str)
  | generated (stamp : Nat)
deriving DecidableEq

/-- Informational transcript notices emitted by the dispatcher; their
display text depends on external collaborators (config, model name), so
each notice carries the inputs of its text. -/
inductive InfoKind
  | userCancelledMsg
  | compressionMsg (originalTokenCount newTokenCount : Option Nat)
  | maxSessionTurnsMsg
  | finishedMsg (reason : FinishReason)
deriving DecidableEq

/-- A transcript entry appended by the dispatcher. -/
inductive HistoryEntry
  | contentItem (item : PendingItem)
  | infoItem (kind : InfoKind)
  | errorItem (message : String)
deriving DecidableEq

/-- State threaded through the dispatcher loop of one turn:
`turnCancelledRef` (never written by the loop itself), the
`processedEventIds` set with the stamp counter backing generated ids, the
content buffer and pending item, the transcript appends, the reasoning
summary (`thought`), the `isResponding` flag, the deduplicated turn-local
tool-call request list, and the deferred loop-detected flag. -/
structure LoopState where
  cancelled : Bool
  seen : List EventId
  stamp : Nat
  buffer : Str
  pending : Option PendingItem
  added : List HistoryEntry
  thought : Option String
  isResponding : Bool
  toolCallRequests : List ToolCallRequestInfo
  loopDetectedFlag : Bool
deriving DecidableEq

/-- Lines 652-655: the identity computed for an event in the present
state. -/
def computeEventId (st : LoopState) : GEvent → EventId
  | .content v => .contentId v.length (v.drop (v.length - 10))
  | _ => .generated st.stamp

/-- One iteration of the dispatcher loop (lines 637-733): compute the
event identity, skip the event when the identity was already seen,
otherwise record it and route by kind. `handleUserCancelledEvent` flushes
the pending item and is itself guarded by the cancellation flag;
`handleErrorEvent` flushes the pending item unconditionally. -/
def processStreamEvent (split : Str → Nat) (st : LoopState) (e : GEvent) : LoopState :=
  let eid := computeEventId st e
  let stN := match e with
    | .content _ => st
    | _ => { st with stamp := st.stamp + 1 }
  if eid ∈ stN.seen then stN
  else
    let st1 := { stN with seen := stN.seen ++ [eid] }
    match e with
    | .thought t => { st1 with thought := some t }
    | .content v =>
        let r := handleContentEvent split st1.cancelled v st1.buffer st1.pending
        { st1 with buffer := r.buffer, pending := r.pending,
                   added := st1.added ++ r.added.map HistoryEntry.contentItem }
    | .toolCallRequest req =>
        if st1.toolCallRequests.any (fun r2 => r2.callId = req.callId) then st1
        else { st1 with toolCallRequests := st1.toolCallRequests ++ [req] }
    | .userCancelled =>
        if st1.cancelled then st1
        else
          let flushed := match st1.pending with
            | some p => [HistoryEntry.contentItem p]
            | none => []
          { st1 with added := st1.added ++ flushed ++ [.infoItem .userCancelledMsg],
                     pending := none, isResponding := false, thought := none }
    | .errorEvent m =>
        let flushed := match st1.pending with
          | some p => [HistoryEntry.contentItem p]
          | none => []
        { st1 with added := st1.added ++ flushed ++ [.errorItem m],
                   pending := none, thought := none }
    | .chatCompressed o n =>
        { st1 with added := st1.added ++ [.infoItem (.compressionMsg o n)] }
    | .toolCallConfirmation => st1
    | .toolCallResponse => st1
    | .maxSessionTurns =>
        { st1 with added := st1.added ++ [.infoItem .maxSessionTurnsMsg] }
    | .finished reason =>
        match finishReasonMessages reason with
        | some _ => { st1 with added := st1.added ++ [.infoItem (.finishedMsg reason)] }
        | none => st1
    | .loopDetected => { st1 with loopDetectedFlag := true }

/-- The dispatcher loop: events are drained strictly in order, with no
early exit. -/
def processGeminiStreamEvents (split : Str → Nat) (events : List GEvent)
    (st : LoopState) : LoopState :=
  events.foldl (processStreamEvent split) st

/-! ## Tool-result submission tracker

The `onComplete` callback of `useReactToolScheduler` (lines 111-144) and
`handleCompletedTools` (lines 882-1039), modelled as a labelled transition
system. The single-threaded event loop makes each synchronous section
atomic; suspension happens only at the awaited continuation
(`submitQuery`) inside the `try`. The system's events are: a settled
batch arriving (`onComplete`), the awaited continuation finishing (which
runs the `finally` block), and the `setTimeout`-deferred re-entry firing.
`isResponding` is modelled as "a continuation is in flight"
(`awaiting.isSome`), its value within this component. -/

inductive TStatus
  | scheduled
  | validating
  | awaitingApproval
  | executing
  | success
  | error
  | cancelled
deriving DecidableEq

/-- A `TrackedToolCall` as consulted by `handleCompletedTools`:
`responseParts` is `response?.responseParts` (`none` when absent), with
parts reduced to strings. -/
structure ToolCall where
  callId : Nat
  name : String
  isClientInitiated : Bool
  status : TStatus
  responseParts : Option (List String)
  promptId : String
deriving DecidableEq

def isTerminal : TStatus → Bool
  | .success => true
  | .error => true
  | .cancelled => true
  | _ => false

/-- Lines 902-922: the settled calls that are terminal and carry response
parts. -/
def readyToSubmit (batch : List ToolCall) : List ToolCall :=
  batch.filter (fun tc => isTerminal tc.status && tc.responseParts.isSome)

/-- Backend-targeted (not client-initiated) calls ready for submission. -/
def geminiReady (batch : List ToolCall) : List ToolCall :=
  (readyToSubmit batch).filter (fun tc => !tc.isClientInitiated)

structure SubmState where
  inProgress : Bool
  pendingSlot : Option (List ToolCall)
  awaiting : Option (List ToolCall)
  timerQueue : List (List ToolCall)
  displayed : List (List ToolCall)
  submittedIds : List Nat
  historyAppends : List (List String)
  continuations : List (List String × String)
  processedBatches : List (List ToolCall)
  guardDropped : List (List ToolCall)
  memoryProcessed : List Nat
  memoryRefreshes : Nat
  quotaSwitched : Bool
deriving DecidableEq

/-- Lines 924-930: client-initiated completed tools are finalized (marked
submitted) immediately, with no backend round-trip. -/
def markClientSubmitted (s : SubmState) (ready : List ToolCall) : SubmState :=
  let clientTools := ready.filter (fun tc => tc.isClientInitiated)
  if clientTools = [] then s
  else { s with submittedIds := s.submittedIds ++ clientTools.map ToolCall.callId }

/-- Lines 932-947: new successful `save_memory` calls trigger one memory
refresh and are remembered in `processedMemoryToolsRef`. -/
def refreshMemory (s : SubmState) (ready : List ToolCall) : SubmState :=
  let newMemorySaves := ready.filter (fun tc =>
    tc.name = "save_memory" && tc.status = TStatus.success &&
      !(s.memoryProcessed.contains tc.callId))
  if newMemorySaves = [] then s
  else { s with memoryRefreshes := s.memoryRefreshes + 1,
                memoryProcessed := s.memoryProcessed ++ newMemorySaves.map ToolCall.callId }

/-- Lines 949-1029: the backend-targeted phase. No ready backend call:
plain return (line 954, the lock stays taken). All cancelled: the
response parts are appended to the conversation history and the calls are
marked submitted, then plain return (line 979, the lock stays taken).
Otherwise the calls are marked submitted and, unless the model was
switched after a quota error (line 997, plain return, lock kept), the
continuation is issued and awaited. -/
def submitGemini (s : SubmState) (geminiTools batch : List ToolCall) : SubmState :=
  if geminiTools = [] then s
  else if geminiTools.all (fun tc => tc.status = TStatus.cancelled) then
    { s with
        historyAppends := s.historyAppends ++
          [geminiTools.flatMap (fun tc => tc.responseParts.getD [])],
        submittedIds := s.submittedIds ++ geminiTools.map ToolCall.callId }
  else
    let s4 := { s with submittedIds := s.submittedIds ++ geminiTools.map ToolCall.callId }
    if s4.quotaSwitched then s4
    else
      { s4 with
          continuations := s4.continuations ++
            [(geminiTools.flatMap (fun tc => tc.responseParts.getD []),
              ((geminiTools.map ToolCall.promptId).headD ""))],
          awaiting := some batch }

/-- `handleCompletedTools` (lines 882-1039) up to its awaited
continuation. The guard (line 892) drops the batch when a submission is
already in progress or a continuation is responding; the lock
(`toolSubmissionInProgressRef`) is taken at line 900 together with the
start of the pass; then the client, memory and backend phases run in
order. Only the continuation-issuing path reaches the `try`/`finally`
that releases the lock. -/
def handleCompletedTools (s : SubmState) (batch : List ToolCall) : SubmState :=
  if s.awaiting.isSome || s.inProgress then
    { s with guardDropped := s.guardDropped ++ [batch] }
  else
    let s1 := { s with inProgress := true,
                       processedBatches := s.processedBatches ++ [batch] }
    let ready := readyToSubmit batch
    submitGemini (refreshMemory (markClientSubmitted s1 ready) ready)
      (ready.filter (fun tc => !tc.isClientInitiated)) batch

/-- The `onComplete` callback of `useReactToolScheduler` (lines 111-144):
an empty completion is ignored; otherwise the batch display is appended,
and the batch is queued into the single pending slot (replacing any
previous occupant) when a submission is in progress, or handed to
`handleCompletedTools` directly. -/
def onComplete (s : SubmState) (batch : List ToolCall) : SubmState :=
  if batch = [] then s
  else
    let s1 := { s with displayed := s.displayed ++ [batch] }
    if s1.inProgress then { s1 with pendingSlot := some batch }
    else handleCompletedTools s1 batch

inductive SEv
  | arrive (batch : List ToolCall)
  | contDone
  | timerFire
deriving DecidableEq

/-- One atomic section of the event loop: a settled batch arrives; or the
awaited continuation finishes, running the `finally` block of lines
1013-1029 (release the lock, move a queued batch to the deferred timer
queue); or a deferred `setTimeout (fun => handleCompletedTools p) 0`
callback fires. -/
def submStep (s : SubmState) : SEv → SubmState
  | .arrive batch => onComplete s batch
  | .contDone =>
      match s.awaiting with
      | none => s
      | some _ =>
          let s1 := { s with awaiting := none, inProgress := false }
          match s1.pendingSlot with
          | some p => { s1 with pendingSlot := none, timerQueue := s1.timerQueue ++ [p] }
          | none => s1
  | .timerFire =>
      match s.timerQueue with
      | [] => s
      | p :: rest => handleCompletedTools { s with timerQueue := rest } p

def runSubm (s : SubmState) (events : List SEv) : SubmState :=
  events.foldl submStep s

def initSubm : SubmState :=
  ⟨false, none, none, [], [], [], [], [], [], [], [], 0, false⟩

/-- The settled batches injected by a list of scheduler events. -/
def arrivals : List SEv → List (List ToolCall)
  | [] => []
  | .arrive b :: evs => b :: arrivals evs
  | _ :: evs => arrivals evs

/-- Every place a settled batch can sit between arrival and processing:
already processed, dropped at the guard, deferred on the timer queue, or
held in the single pending slot. -/
def inFlight (s : SubmState) : List (List ToolCall) :=
  s.processedBatches ++ s.guardDropped ++ s.timerQueue ++ s.pendingSlot.toList

/-! ## Checkpoint recorder (`saveRestorableToolCalls`, lines 1046-1155) -/

/-- A JSON value, as far as the persisted checkpoint record needs. -/
inductive Json
  | str (s : String)
  | num (n : Int)
  | obj (fields : List (String × Json))
  | arr (elems : List Json)
  | null

def Json.keys : Json → List String
  | .obj fields => fields.map Prod.fst
  | _ => []

def Json.lookup (key : String) : Json → Option Json
  | .obj fields => (fields.find? (fun f => f.fst = key)).map Prod.snd
  | _ => none

/-- Lines 1115-1118: the timestamp used in the checkpoint file name is the
ISO timestamp with every colon replaced by a dash and every dot by an
underscore (`.replace(/:/g, '-').replace(/\./g, '_')`). -/
def sanitizeTimestamp (iso : String) : String :=
  ⟨iso.data.map (fun c => if c = ':' then '-' else if c = '.' then '_' else c)⟩

/-- `path.basename`: the final path segment. -/
def basename (p : String) : String :=
  ⟨(p.data.reverse.takeWhile (fun c => c ≠ '/')).reverse⟩

/-- Line 1121: `toolCallWithSnapshotFileName`. -/
def checkpointFileName (isoTimestamp filePath toolName : String) : String :=
  sanitizeTimestamp isoTimestamp ++ "-" ++ basename filePath ++ "-" ++ toolName ++ ".json"

/-- Lines 1128-1144: the persisted checkpoint record. -/
def checkpointRecord (history clientHistory : Json) (toolName : String)
    (toolArgs : Json) (commitHash filePath : String) : Json :=
  .obj [("history", history),
        ("clientHistory", clientHistory),
        ("toolCall", .obj [("name", .str toolName), ("args", toolArgs)]),
        ("commitHash", .str commitHash),
        ("filePath", .str filePath)]

/-! ## OpenAI token counter (`OpenAIContentGenerator.countTokens`) -/

/-- A `Part` as read by `countTokens`: only an optional `text` field. -/
structure GPart where
  text : Option String
deriving DecidableEq

/-- A `Content` as read by `countTokens`: an optional `parts` array. -/
structure GContent where
  parts : Option (List GPart)
deriving DecidableEq

/-- `OpenAIContentGenerator.countTokens` (adapter lines 185-212): about
four characters per token; parts without a (non-empty) text are skipped
(`if (part.text)` is false for an absent and for an empty string), and
`Math.ceil (length / 4)` is `(length + 3) / 4`. -/
def countTokens (contents : List GContent) : Nat :=
  contents.foldl
    (fun total content =>
      match content.parts with
      | some parts =>
          parts.foldl
            (fun t part =>
              match part.text with
              | some s => if s.length ≠ 0 then t + (s.length + 3) / 4 else t
              | none => t)
            total
      | none => total)
    0

/-- The token count the claim describes: the sum over all parts carrying
text of the ceiling of the text length over four. -/
def specTokenCount (contents : List GContent) : Nat :=
  (contents.map (fun content =>
    (((content.parts.getD []).map (fun part =>
        match part.text with
        | some s => (s.length + 3) / 4
        | none => 0)).sum))).sum

/-! ## Theorems -/

/-- The token contribution of one part. -/
theorem countTokens_inner (parts : List GPart) (t : Nat) :
    parts.foldl
      (fun t part =>
        match part.text with
        | some s => if s.length ≠ 0 then t + (s.length + 3) / 4 else t
        | none => t)
      t
    = t + (parts.map (fun part =>
        match part.text with
        | some s => (s.length + 3) / 4
        | none => 0)).sum := by
  induction parts generalizing t with
  | nil => simp
  | cons p ps ih =>
    simp only [List.foldl_cons, List.map_cons, List.sum_cons]
    cases hp : p.text with
    | none =>
      simp only [hp]
      rw [ih]
      omega
    | some s =>
      simp only [hp]
      by_cases hs : s.length = 0
      · rw [if_neg (not_not_intro hs), ih, hs]
        omega
      · rw [if_pos hs, ih]
        omega

theorem countTokens_outer (contents : List GContent) (t : Nat) :
    contents.foldl
      (fun total content =>
        match content.parts with
        | some parts =>
            parts.foldl
              (fun t part =>
                match part.text with
                | some s => if s.length ≠ 0 then t + (s.length + 3) / 4 else t
                | none => t)
              total
        | none => total)
      t
    = t + specTokenCount contents := by
  induction contents generalizing t with
  | nil => simp [specTokenCount]
  | cons c cs ih =>
    simp only [List.foldl_cons, specTokenCount, List.map_cons, List.sum_cons]
    cases hc : c.parts with
    | none =>
      simp only [hc, Option.getD_none, List.map_nil, List.sum_nil]
      rw [ih]
      simp only [specTokenCount]
      omega
    | some parts =>
      simp only [hc, Option.getD_some]
      rw [countTokens_inner, ih]
      simp only [specTokenCount]
      omega

/-- C10: `countTokens` returns the sum, over every part with a text field
in the request's contents, of the ceiling of the text's character length
divided by four; parts without text contribute zero, and empty contents
yield zero. -/
theorem c10_countTokens (contents : List GContent) :
    countTokens contents = specTokenCount contents ∧ countTokens ([] : List GContent) = 0 := by
  constructor
  · unfold countTokens
    rw [countTokens_outer]
    omega
  · rfl

/-- C9 counterexample: for the concrete ISO timestamp
`2025-10-12T03:04:05.123Z`, file path `/a/b.txt` and tool `replace`, the
generated checkpoint file name is the sanitized
`2025-10-12T03-04-05_123Z-b.txt-replace.json`, not the claimed
`<ISO-timestamp>-<basename>-<toolName>.json` (the code replaces every
colon with a dash and every dot with an underscore first). -/
theorem c9_counterexample :
    checkpointFileName "2025-10-12T03:04:05.123Z" "/a/b.txt" "replace"
        = "2025-10-12T03-04-05_123Z-b.txt-replace.json"
      ∧ checkpointFileName "2025-10-12T03:04:05.123Z" "/a/b.txt" "replace"
        ≠ "2025-10-12T03:04:05.123Z" ++ "-" ++ basename "/a/b.txt" ++ "-" ++ "replace" ++ ".json" := by
  constructor
  · rfl
  · decide

/-- C9 amended: every persisted checkpoint record is a JSON object with
exactly the fields `history`, `clientHistory`, `toolCall` (itself exactly
`name` and `args`), `commitHash` and `filePath`, and the file name is
`<sanitized ISO timestamp>-<basename>-<toolName>.json`, where the
sanitized timestamp is the ISO timestamp with colons replaced by dashes
and dots by underscores. -/
theorem c9_amended (iso filePath toolName commitHash : String)
    (history clientHistory toolArgs : Json) :
    checkpointFileName iso filePath toolName
        = sanitizeTimestamp iso ++ "-" ++ basename filePath ++ "-" ++ toolName ++ ".json"
      ∧ (checkpointRecord history clientHistory toolName toolArgs commitHash filePath).keys
        = ["history", "clientHistory", "toolCall", "commitHash", "filePath"]
      ∧ ((checkpointRecord history clientHistory toolName toolArgs commitHash
            filePath).lookup "toolCall").map Json.keys
        = some ["name", "args"] := by
  refine ⟨rfl, rfl, ?_⟩
  simp [checkpointRecord, Json.lookup, Json.keys, List.find?]

/-- C4: the content-apply step leaves the buffer unchanged on an empty
fragment, replaces it by the fragment when the fragment extends the
buffer (full-accumulated resend), appends the fragment otherwise, and
when the computed result equals the prior buffer the handler makes no
observable emission (no transcript append, no pending-item update). -/
theorem c4_apply (split : Str → Nat) (buffer frag : Str) (pending : Option PendingItem) :
    (frag = [] → applyFragment buffer frag = buffer)
      ∧ (buffer.isPrefixOf frag = true → applyFragment buffer frag = frag)
      ∧ (buffer.isPrefixOf frag = false → applyFragment buffer frag = buffer ++ frag)
      ∧ (applyFragment buffer frag = buffer →
          (handleContentEvent split false frag buffer pending).added = []
            ∧ (handleContentEvent split false frag buffer pending).pendingSets = 0) := by
  refine ⟨?_, ?_, ?_, ?_⟩
  · intro h
    simp [applyFragment, h]
  · intro h
    by_cases hf : frag = []
    · subst hf
      have hb : buffer = [] := List.prefix_nil.mp (List.isPrefixOf_iff_prefix.mp h)
      simp [applyFragment, hb]
    · simp [applyFragment, hf, h]
  · intro h
    by_cases hf : frag = []
    · subst hf
      simp [applyFragment]
    · simp [applyFragment, hf, h]
  · intro h
    by_cases hf : frag = []
    · simp [handleContentEvent, hf]
    · simp only [handleContentEvent, hf, h]
      simp

/-- C4 witness at concrete inputs: a snapshot resend, a delta append, and
an emission-free duplicate. -/
theorem c4_witness :
    applyFragment ("He".data) ("Hello".data) = "Hello".data
      ∧ applyFragment ("He".data) ("xyz".data) = "Hexyz".data
      ∧ (handleContentEvent findLastSafeSplitPoint false ("He".data) ("He".data) none).added = [] := by
  refine ⟨?_, ?_, ?_⟩
  · exact (c4_apply findLastSafeSplitPoint ("He".data) ("Hello".data) none).2.1 (by decide)
  · exact (c4_apply findLastSafeSplitPoint ("He".data) ("xyz".data) none).2.2.1 (by decide)
  · exact ((c4_apply findLastSafeSplitPoint ("He".data) ("He".data) none).2.2.2 (by decide)).1

/-- C7 counterexample: for the fragment `abc` on an empty buffer the
split point equals the new buffer's length, but the open pending fragment
is NOT updated in place to the new buffer `abc` — the `shouldUpdate`
throttle (growth of at most five characters, no boundary character) skips
the update and the pending item keeps the empty text. -/
theorem c7_counterexample :
    applyFragment [] ("abc".data) = "abc".data
      ∧ findLastSafeSplitPoint ("abc".data) = ("abc".data).length
      ∧ (handleContentEvent findLastSafeSplitPoint false ("abc".data) [] none).pending
        = some ⟨PendingKind.gemini, []⟩
      ∧ some (⟨PendingKind.gemini, []⟩ : PendingItem)
        ≠ some (⟨PendingKind.gemini, "abc".data⟩ : PendingItem) := by
  refine ⟨by decide, by decide, by decide, by decide⟩

/-- C7 amended: after a content-apply step that changes the buffer, if
the split point equals the new buffer's length the new buffer is returned
open and the pending fragment is updated in place only when the
`shouldUpdate` throttle passes (text differs and either grew by more than
five characters or ends with a boundary character); otherwise the text
after the split point becomes the open buffer and pending fragment, and
the text before the split point is committed as a closed transcript entry
exactly when it is non-empty and differs from the pending item's text. -/
theorem c7_amended (split : Str → Nat) (frag buffer : Str) (pending : Option PendingItem)
    (hfrag : frag ≠ []) (hchange : applyFragment buffer frag ≠ buffer) :
    (split (applyFragment buffer frag) = (applyFragment buffer frag).length →
      (handleContentEvent split false frag buffer pending).buffer = applyFragment buffer frag
        ∧ (shouldUpdatePending (flushNonGemini pending).1.text (applyFragment buffer frag) = true →
            (handleContentEvent split false frag buffer pending).pending
              = some ⟨(flushNonGemini pending).1.kind, applyFragment buffer frag⟩)
        ∧ (shouldUpdatePending (flushNonGemini pending).1.text (applyFragment buffer frag) = false →
            (handleContentEvent split false frag buffer pending).pending
              = some (flushNonGemini pending).1))
    ∧ (split (applyFragment buffer frag) ≠ (applyFragment buffer frag).length →
        (handleContentEvent split false frag buffer pending).buffer
            = (applyFragment buffer frag).drop (split (applyFragment buffer frag))
          ∧ (handleContentEvent split false frag buffer pending).pending
            = some ⟨PendingKind.geminiContent,
                (applyFragment buffer frag).drop (split (applyFragment buffer frag))⟩
          ∧ ((applyFragment buffer frag).take (split (applyFragment buffer frag)) ≠ []
              ∧ (applyFragment buffer frag).take (split (applyFragment buffer frag))
                ≠ (flushNonGemini pending).1.text →
              (handleContentEvent split false frag buffer pending).added
                = (flushNonGemini pending).2.1
                  ++ [⟨(flushNonGemini pending).1.kind,
                      (applyFragment buffer frag).take (split (applyFragment buffer frag))⟩])
          ∧ (¬((applyFragment buffer frag).take (split (applyFragment buffer frag)) ≠ []
                ∧ (applyFragment buffer frag).take (split (applyFragment buffer frag))
                  ≠ (flushNonGemini pending).1.text) →
              (handleContentEvent split false frag buffer pending).added
                = (flushNonGemini pending).2.1)) := by
  constructor
  · intro hsplit
    refine ⟨?_, ?_, ?_⟩
    · by_cases hu : shouldUpdatePending (flushNonGemini pending).1.text (applyFragment buffer frag) = true
      · simp [handleContentEvent, hfrag, hchange, hsplit, hu]
      · simp [handleContentEvent, hfrag, hchange, hsplit, hu]
    · intro hu
      simp [handleContentEvent, hfrag, hchange, hsplit, hu]
    · intro hu
      simp [handleContentEvent, hfrag, hchange, hsplit, hu]
  · intro hsplit
    refine ⟨?_, ?_, ?_, ?_⟩
    · simp [handleContentEvent, hfrag, hchange, hsplit]
    · simp [handleContentEvent, hfrag, hchange, hsplit]
    · intro hadd
      simp [handleContentEvent, hfrag, hchange, hsplit, hadd]
    · intro hadd
      have hor : (applyFragment buffer frag).take (split (applyFragment buffer frag)) = []
          ∨ (applyFragment buffer frag).take (split (applyFragment buffer frag))
            = (flushNonGemini pending).1.text := by
        by_cases hA : (applyFragment buffer frag).take (split (applyFragment buffer frag)) = []
        · exact Or.inl hA
        · right
          by_contra hB
          exact hadd ⟨hA, hB⟩
      simp [handleContentEvent, hfrag, hchange, hsplit]
      intro h1 h2
      rcases hor with h | h
      · rw [List.take_eq_nil_iff] at h
        rcases h with h | h
        · exact absurd h h1
        · exact absurd h h2
      · exact h

/-- C7 witness: a concrete split — fragment `Hi.\n\nx` on the empty
buffer commits `Hi.\n\n` and keeps `x` open. -/
theorem c7_witness :
    (handleContentEvent findLastSafeSplitPoint false ("Hi.\n\nx".data) [] none).buffer = "x".data
      ∧ (handleContentEvent findLastSafeSplitPoint false ("Hi.\n\nx".data) [] none).added
        = [⟨PendingKind.gemini, "Hi.\n\n".data⟩] := by
  have h := c7_amended findLastSafeSplitPoint ("Hi.\n\nx".data) [] none (by decide) (by decide)
  have h2 := h.2 (by decide)
  refine ⟨?_, ?_⟩
  · have hb := h2.1
    rw [hb]
    decide
  · have ha := h2.2.2.1 (by decide)
    rw [ha]
    decide

/-- One dispatcher iteration preserves distinctness of the registered
tool-call identifiers. -/
theorem processStreamEvent_nodup (split : Str → Nat) (st : LoopState) (e : GEvent)
    (h : (st.toolCallRequests.map ToolCallRequestInfo.callId).Nodup) :
    (((processStreamEvent split st e).toolCallRequests).map ToolCallRequestInfo.callId).Nodup := by
  unfold processStreamEvent
  cases e with
  | toolCallRequest req =>
    simp only
    split
    · exact h
    · split
      · exact h
      · rename_i hany
        simp only [List.map_append, List.map_cons, List.map_nil]
        rw [List.nodup_append]
        refine ⟨h, List.nodup_singleton _, ?_⟩
        intro a ha hb
        simp only [List.mem_singleton] at hb
        subst hb
        rw [List.mem_map] at ha
        obtain ⟨r2, hr2, hid⟩ := ha
        rw [List.any_eq_true] at hany
        exact hany ⟨r2, hr2, by simp [hid]⟩
  | thought t => simp only; split <;> exact h
  | content v => simp only; split <;> exact h
  | userCancelled =>
    simp only
    split
    · exact h
    · split <;> exact h
  | errorEvent m => simp only; split <;> exact h
  | chatCompressed o n => simp only; split <;> exact h
  | toolCallConfirmation => simp only; split <;> exact h
  | toolCallResponse => simp only; split <;> exact h
  | maxSessionTurns => simp only; split <;> exact h
  | finished reason =>
    simp only
    split
    · exact h
    · split <;> exact h
  | loopDetected => simp only; split <;> exact h

/-- C8 counterexample: with cancellation already raised, a Thought event
is NOT suppressed — `processStreamEvents` routes it to `setThought`
without consulting the cancellation flag, so the reasoning summary is
updated. (Only `handleContentEvent` checks `turnCancelledRef`.) -/
theorem c8_counterexample :
    (⟨true, [], 0, "abc".data, none, [], none, true, [], false⟩ : LoopState).cancelled = true
      ∧ (processStreamEvent findLastSafeSplitPoint
          ⟨true, [], 0, "abc".data, none, [], none, true, [], false⟩
          (GEvent.thought "hi")).thought = some "hi"
      ∧ (⟨true, [], 0, "abc".data, none, [], none, true, [], false⟩ : LoopState).thought
        ≠ some "hi" := by
  refine ⟨rfl, by decide, by decide⟩

/-- C8 amended: once cancellation is raised, Content events are
suppressed — they append nothing to the transcript, leave the pending
item unchanged, and reset the open buffer to empty — but Thought events
are NOT suppressed: they still update the reasoning summary. Events
already queued still drain: the dispatcher is a fold that handles every
event of the stream in order. -/
theorem c8_amended (split : Str → Nat) (st : LoopState)
    (hc : st.cancelled = true) :
    (∀ v : Str, computeEventId st (GEvent.content v) ∉ st.seen →
        (processStreamEvent split st (GEvent.content v)).added = st.added
          ∧ (processStreamEvent split st (GEvent.content v)).pending = st.pending
          ∧ (processStreamEvent split st (GEvent.content v)).buffer = [])
      ∧ (∀ t : String, EventId.generated st.stamp ∉ st.seen →
          (processStreamEvent split st (GEvent.thought t)).thought = some t)
      ∧ (∀ (e : GEvent) (events : List GEvent),
          processGeminiStreamEvents split (e :: events) st
            = processGeminiStreamEvents split events (processStreamEvent split st e)) := by
  refine ⟨?_, ?_, ?_⟩
  · intro v hseen
    have : computeEventId st (GEvent.content v)
        = EventId.contentId v.length (v.drop (v.length - 10)) := rfl
    rw [this] at hseen
    refine ⟨?_, ?_, ?_⟩ <;>
      simp [processStreamEvent, computeEventId, hseen, handleContentEvent, hc]
  · intro t hseen
    have : computeEventId st (GEvent.thought t) = EventId.generated st.stamp := rfl
    simp [processStreamEvent, computeEventId, hseen]
  · intro e events
    rfl

/-- C8 witness: at a concrete cancelled state, a Content event leaves the
transcript untouched and empties the buffer, and a Thought event still
lands. -/
theorem c8_witness :
    (processStreamEvent findLastSafeSplitPoint
        ⟨true, [], 0, "abc".data, none, [], none, true, [], false⟩
        (GEvent.content ("xy".data))).added = []
      ∧ (processStreamEvent findLastSafeSplitPoint
          ⟨true, [], 0, "abc".data, none, [], none, true, [], false⟩
          (GEvent.content ("xy".data))).buffer = []
      ∧ (processStreamEvent findLastSafeSplitPoint
          ⟨true, [], 0, "abc".data, none, [], none, true, [], false⟩
          (GEvent.thought "hi")).thought = some "hi" := by
  have h := c8_amended findLastSafeSplitPoint
    ⟨true, [], 0, "abc".data, none, [], none, true, [], false⟩ rfl
  have hcontent := h.1 ("xy".data) (by decide)
  refine ⟨hcontent.1, hcontent.2.2, h.2.1 "hi" (by decide)⟩

/-- C5: an event whose computed identity (content-based for Content
events, generation-based for all others) was already seen in this turn is
skipped — no transcript entry, no tool-call registration, no buffer,
pending, thought or seen-set change; a ToolCallRequest whose call
identifier is already in the turn-local request list is never registered
a second time, and distinctness of registered call identifiers is
preserved across the whole stream. -/
theorem c5_dedup (split : Str → Nat) :
    (∀ (st : LoopState) (e : GEvent), computeEventId st e ∈ st.seen →
        (processStreamEvent split st e).added = st.added
          ∧ (processStreamEvent split st e).toolCallRequests = st.toolCallRequests
          ∧ (processStreamEvent split st e).buffer = st.buffer
          ∧ (processStreamEvent split st e).pending = st.pending
          ∧ (processStreamEvent split st e).thought = st.thought
          ∧ (processStreamEvent split st e).seen = st.seen)
      ∧ (∀ (st : LoopState) (req : ToolCallRequestInfo),
          req.callId ∈ st.toolCallRequests.map ToolCallRequestInfo.callId →
            (processStreamEvent split st (GEvent.toolCallRequest req)).toolCallRequests
              = st.toolCallRequests)
      ∧ (∀ (events : List GEvent) (st : LoopState),
          (st.toolCallRequests.map ToolCallRequestInfo.callId).Nodup →
            (((processGeminiStreamEvents split events st).toolCallRequests).map
              ToolCallRequestInfo.callId).Nodup) := by
    refine ⟨?_, ?_, ?_⟩
    · intro st e h
      cases e <;>
        simp_all [processStreamEvent, computeEventId]
    · intro st req h
      unfold processStreamEvent
      simp only
      split
      · rfl
      · rw [List.mem_map] at h
        obtain ⟨r2, hr2, hid⟩ := h
        have hany : st.toolCallRequests.any (fun r2 => r2.callId = req.callId) = true := by
          rw [List.any_eq_true]
          exact ⟨r2, hr2, by simp [hid]⟩
        simp [computeEventId, hany]
    · intro events
      induction events with
      | nil => intro st h; exact h
      | cons e evs ih =>
        intro st h
        exact ih _ (processStreamEvent_nodup split st e h)

/-- C5 witness: a redelivered Content event is skipped, a duplicate
ToolCallRequest is not registered twice, and a concrete stream keeps the
request list duplicate-free. -/
theorem c5_witness :
    (processStreamEvent findLastSafeSplitPoint
        ⟨false, [EventId.contentId 2 ("hi".data)], 0, "hi".data, none, [], none, true, [], false⟩
        (GEvent.content ("hi".data))).added = []
      ∧ (processStreamEvent findLastSafeSplitPoint
          ⟨false, [], 0, [], none, [], none, true, [⟨7, "ls"⟩], false⟩
          (GEvent.toolCallRequest ⟨7, "shell"⟩)).toolCallRequests = [⟨7, "ls"⟩]
      ∧ (((processGeminiStreamEvents findLastSafeSplitPoint
            [GEvent.toolCallRequest ⟨7, "ls"⟩, GEvent.toolCallRequest ⟨7, "shell"⟩]
            ⟨false, [], 0, [], none, [], none, true, [], false⟩).toolCallRequests).map
          ToolCallRequestInfo.callId).Nodup := by
  refine ⟨?_, ?_, ?_⟩
  · exact ((c5_dedup findLastSafeSplitPoint).1
      ⟨false, [EventId.contentId 2 ("hi".data)], 0, "hi".data, none, [], none, true, [], false⟩
      (GEvent.content ("hi".data)) (by decide)).1
  · exact (c5_dedup findLastSafeSplitPoint).2.1
      ⟨false, [], 0, [], none, [], none, true, [⟨7, "ls"⟩], false⟩ ⟨7, "shell"⟩ (by decide)
  · exact (c5_dedup findLastSafeSplitPoint).2.2
      [GEvent.toolCallRequest ⟨7, "ls"⟩, GEvent.toolCallRequest ⟨7, "shell"⟩]
      ⟨false, [], 0, [], none, [], none, true, [], false⟩ (by decide)

/-- Field bookkeeping of the client-finalisation phase. -/
theorem markClientSubmitted_fields (s : SubmState) (ready : List ToolCall) :
    (markClientSubmitted s ready).continuations = s.continuations
      ∧ (markClientSubmitted s ready).awaiting = s.awaiting
      ∧ (markClientSubmitted s ready).historyAppends = s.historyAppends
      ∧ (markClientSubmitted s ready).inProgress = s.inProgress
      ∧ (markClientSubmitted s ready).processedBatches = s.processedBatches
      ∧ (markClientSubmitted s ready).guardDropped = s.guardDropped
      ∧ (markClientSubmitted s ready).pendingSlot = s.pendingSlot
      ∧ (markClientSubmitted s ready).timerQueue = s.timerQueue
      ∧ (markClientSubmitted s ready).quotaSwitched = s.quotaSwitched
      ∧ ∃ l, (markClientSubmitted s ready).submittedIds = s.submittedIds ++ l := by
  by_cases hc : ready.filter (fun tc => tc.isClientInitiated) = []
  · have h : markClientSubmitted s ready = s := by
      simp [markClientSubmitted, hc]
    rw [h]
    exact ⟨rfl, rfl, rfl, rfl, rfl, rfl, rfl, rfl, rfl, ⟨[], by simp⟩⟩
  · have h : markClientSubmitted s ready
        = { s with submittedIds := s.submittedIds
              ++ (ready.filter (fun tc => tc.isClientInitiated)).map ToolCall.callId } := by
      simp [markClientSubmitted, hc]
    rw [h]
    exact ⟨rfl, rfl, rfl, rfl, rfl, rfl, rfl, rfl, rfl, ⟨_, rfl⟩⟩

/-- Field bookkeeping of the memory-refresh phase. -/
theorem refreshMemory_fields (s : SubmState) (ready : List ToolCall) :
    (refreshMemory s ready).continuations = s.continuations
      ∧ (refreshMemory s ready).awaiting = s.awaiting
      ∧ (refreshMemory s ready).historyAppends = s.historyAppends
      ∧ (refreshMemory s ready).inProgress = s.inProgress
      ∧ (refreshMemory s ready).processedBatches = s.processedBatches
      ∧ (refreshMemory s ready).guardDropped = s.guardDropped
      ∧ (refreshMemory s ready).pendingSlot = s.pendingSlot
      ∧ (refreshMemory s ready).timerQueue = s.timerQueue
      ∧ (refreshMemory s ready).quotaSwitched = s.quotaSwitched
      ∧ (refreshMemory s ready).submittedIds = s.submittedIds := by
  by_cases hm : ready.filter (fun tc =>
      tc.name = "save_memory" && tc.status = TStatus.success &&
        !(s.memoryProcessed.contains tc.callId)) = []
  · have h : refreshMemory s ready = s := by
      simp only [refreshMemory, hm]
      rfl
    rw [h]
    exact ⟨rfl, rfl, rfl, rfl, rfl, rfl, rfl, rfl, rfl, rfl⟩
  · have h : refreshMemory s ready
        = { s with memoryRefreshes := s.memoryRefreshes + 1,
                   memoryProcessed := s.memoryProcessed
                     ++ (ready.filter (fun tc =>
                          tc.name = "save_memory" && tc.status = TStatus.success &&
                            !(s.memoryProcessed.contains tc.callId))).map ToolCall.callId } := by
      simp only [refreshMemory, hm]
      simp
    rw [h]
    exact ⟨rfl, rfl, rfl, rfl, rfl, rfl, rfl, rfl, rfl, rfl⟩

theorem submitGemini_nil (s : SubmState) (batch : List ToolCall) :
    submitGemini s [] batch = s := by
  simp [submitGemini]

theorem submitGemini_allCancelled (s : SubmState) (g batch : List ToolCall)
    (h1 : g ≠ []) (h2 : g.all (fun tc => tc.status = TStatus.cancelled) = true) :
    submitGemini s g batch
      = { s with
            historyAppends := s.historyAppends ++
              [g.flatMap (fun tc => tc.responseParts.getD [])],
            submittedIds := s.submittedIds ++ g.map ToolCall.callId } := by
  simp [submitGemini, h1, h2]

theorem submitGemini_inProgress (s : SubmState) (g batch : List ToolCall) :
    (submitGemini s g batch).inProgress = s.inProgress := by
  simp only [submitGemini]
  split_ifs <;> rfl

/-- The backend phase leaves the queue-like fields untouched. -/
theorem submitGemini_queues (s : SubmState) (g batch : List ToolCall) :
    (submitGemini s g batch).processedBatches = s.processedBatches
      ∧ (submitGemini s g batch).guardDropped = s.guardDropped
      ∧ (submitGemini s g batch).pendingSlot = s.pendingSlot
      ∧ (submitGemini s g batch).timerQueue = s.timerQueue
      ∧ (submitGemini s g batch).displayed = s.displayed := by
  simp only [submitGemini]
  split_ifs <;> exact ⟨rfl, rfl, rfl, rfl, rfl⟩

/-- On the three early-exit paths the backend phase does not await a
continuation. -/
theorem submitGemini_awaiting_early (s : SubmState) (g batch : List ToolCall)
    (h : g = [] ∨ g.all (fun tc => tc.status = TStatus.cancelled) = true
        ∨ s.quotaSwitched = true) :
    (submitGemini s g batch).awaiting = s.awaiting := by
  simp only [submitGemini]
  split_ifs with hg hc hq
  · rfl
  · rfl
  · rfl
  · rcases h with h | h | h
    · exact absurd h hg
    · exact absurd h hc
    · exact absurd h hq

/-- On the three early-exit paths the backend phase issues no
continuation. -/
theorem submitGemini_continuations_early (s : SubmState) (g batch : List ToolCall)
    (h : g = [] ∨ g.all (fun tc => tc.status = TStatus.cancelled) = true
        ∨ s.quotaSwitched = true) :
    (submitGemini s g batch).continuations = s.continuations := by
  simp only [submitGemini]
  split_ifs with hg hc hq
  · rfl
  · rfl
  · rfl
  · rcases h with h | h | h
    · exact absurd h hg
    · exact absurd h hc
    · exact absurd h hq

/-- A pass whose guard does not fire reduces to the phased body. -/
theorem handleCompletedTools_body (s : SubmState) (batch : List ToolCall)
    (hguard : (s.awaiting.isSome || s.inProgress) = false) :
    handleCompletedTools s batch
      = submitGemini
          (refreshMemory
            (markClientSubmitted
              { s with inProgress := true,
                       processedBatches := s.processedBatches ++ [batch] }
              (readyToSubmit batch))
            (readyToSubmit batch))
          ((readyToSubmit batch).filter (fun tc => !tc.isClientInitiated)) batch := by
  unfold handleCompletedTools
  rw [if_neg]
  rw [hguard]
  exact Bool.false_ne_true

/-- A pass whose guard fires only records the dropped batch. -/
theorem handleCompletedTools_guard (s : SubmState) (batch : List ToolCall)
    (hguard : (s.awaiting.isSome || s.inProgress) = true) :
    handleCompletedTools s batch = { s with guardDropped := s.guardDropped ++ [batch] } := by
  unfold handleCompletedTools
  rw [if_pos hguard]

/-- C6: for a settled batch (every call terminal with populated response
parts) in which every backend-targeted call is cancelled, a free
submission pass issues no continuation turn; the cancelled backend calls'
response parts are appended directly to the conversation history, and all
of those calls are marked as submitted. -/
theorem c6_allCancelled (s : SubmState) (batch : List ToolCall)
    (hIn : s.inProgress = false) (hAw : s.awaiting = none)
    (hReady : ∀ tc ∈ batch, isTerminal tc.status = true ∧ tc.responseParts.isSome = true)
    (hCancel : ∀ tc ∈ batch, tc.isClientInitiated = false → tc.status = TStatus.cancelled) :
    (handleCompletedTools s batch).continuations = s.continuations
      ∧ (handleCompletedTools s batch).awaiting = none
      ∧ (geminiReady batch ≠ [] →
          (handleCompletedTools s batch).historyAppends
            = s.historyAppends
                ++ [(geminiReady batch).flatMap (fun tc => tc.responseParts.getD [])])
      ∧ (geminiReady batch = [] →
          (handleCompletedTools s batch).historyAppends = s.historyAppends)
      ∧ (∀ tc ∈ geminiReady batch,
          tc.callId ∈ (handleCompletedTools s batch).submittedIds) := by
  have hready : readyToSubmit batch = batch := by
    rw [readyToSubmit, List.filter_eq_self]
    intro tc htc
    have h := hReady tc htc
    rw [h.1, h.2]
    rfl
  have hguard : (s.awaiting.isSome || s.inProgress) = false := by
    rw [hAw, hIn]
    rfl
  have hgem : geminiReady batch = batch.filter (fun tc => !tc.isClientInitiated) := by
    rw [geminiReady, hready]
  have hall : (batch.filter (fun tc => !tc.isClientInitiated)).all
      (fun tc => tc.status = TStatus.cancelled) = true := by
    rw [List.all_eq_true]
    intro tc htc
    rw [List.mem_filter] at htc
    have h2 : tc.isClientInitiated = false := by simpa using htc.2
    simp [hCancel tc htc.1 h2]
  have hbody := handleCompletedTools_body s batch hguard
  rw [hready] at hbody
  have hA := markClientSubmitted_fields
    { s with inProgress := true, processedBatches := s.processedBatches ++ [batch] } batch
  have hB := refreshMemory_fields
    (markClientSubmitted
      { s with inProgress := true, processedBatches := s.processedBatches ++ [batch] } batch)
    batch
  by_cases h3 : batch.filter (fun tc => !tc.isClientInitiated) = []
  · have hres : handleCompletedTools s batch
        = refreshMemory
            (markClientSubmitted
              { s with inProgress := true, processedBatches := s.processedBatches ++ [batch] }
              batch)
            batch := by
      rw [hbody, h3, submitGemini_nil]
    refine ⟨?_, ?_, ?_, ?_, ?_⟩
    · rw [hres, hB.1, hA.1]
    · rw [hres, hB.2.1, hA.2.1]
      exact hAw
    · intro hne
      rw [hgem] at hne
      exact absurd h3 hne
    · intro _
      rw [hres, hB.2.2.1, hA.2.2.1]
    · intro tc htc
      rw [hgem, h3] at htc
      exact absurd htc (List.not_mem_nil tc)
  · have hres : handleCompletedTools s batch
        = { refreshMemory
              (markClientSubmitted
                { s with inProgress := true,
                         processedBatches := s.processedBatches ++ [batch] }
                batch)
              batch with
            historyAppends :=
              (refreshMemory
                (markClientSubmitted
                  { s with inProgress := true,
                           processedBatches := s.processedBatches ++ [batch] }
                  batch)
                batch).historyAppends ++
                  [(batch.filter (fun tc => !tc.isClientInitiated)).flatMap
                    (fun tc => tc.responseParts.getD [])],
            submittedIds :=
              (refreshMemory
                (markClientSubmitted
                  { s with inProgress := true,
                           processedBatches := s.processedBatches ++ [batch] }
                  batch)
                batch).submittedIds ++
                  (batch.filter (fun tc => !tc.isClientInitiated)).map ToolCall.callId } := by
      rw [hbody, submitGemini_allCancelled _ _ _ h3 hall]
    refine ⟨?_, ?_, ?_, ?_, ?_⟩
    · rw [hres]
      show (refreshMemory _ _).continuations = s.continuations
      rw [hB.1, hA.1]
    · rw [hres]
      show (refreshMemory _ _).awaiting = none
      rw [hB.2.1, hA.2.1]
      exact hAw
    · intro _
      rw [hres, hgem]
      show (refreshMemory _ _).historyAppends ++ _ = s.historyAppends ++ _
      rw [hB.2.2.1, hA.2.2.1]
    · intro hz
      rw [hgem] at hz
      exact absurd hz h3
    · intro tc htc
      rw [hres]
      show tc.callId ∈ (refreshMemory _ _).submittedIds ++ _
      rw [List.mem_append]
      right
      rw [List.mem_map]
      rw [hgem] at htc
      exact ⟨tc, htc, rfl⟩

/-- C6 witness: a concrete all-cancelled batch appends its response parts
to the conversation history, issues no continuation and is marked
submitted. -/
theorem c6_witness :
    (handleCompletedTools initSubm
        [⟨1, "shell", false, TStatus.cancelled, some ["cancelled-result"], "p1"⟩]).continuations
        = []
      ∧ (handleCompletedTools initSubm
          [⟨1, "shell", false, TStatus.cancelled, some ["cancelled-result"], "p1"⟩]).historyAppends
        = [["cancelled-result"]]
      ∧ 1 ∈ (handleCompletedTools initSubm
          [⟨1, "shell", false, TStatus.cancelled, some ["cancelled-result"], "p1"⟩]).submittedIds := by
  have h := c6_allCancelled initSubm
    [⟨1, "shell", false, TStatus.cancelled, some ["cancelled-result"], "p1"⟩]
    rfl rfl (by decide) (by decide)
  refine ⟨h.1, ?_, ?_⟩
  · have hh := h.2.2.1 (by decide)
    rw [hh]
    decide
  · exact h.2.2.2.2 ⟨1, "shell", false, TStatus.cancelled, some ["cancelled-result"], "p1"⟩
      (by decide)

/-- C3 counterexample: a settled batch whose backend-targeted calls are
all cancelled finishes its submission pass (no continuation is in
flight), yet the one-at-a-time lock is still held afterwards — the
all-cancelled early return bypasses the releasing `finally`. -/
theorem c3_counterexample :
    (runSubm initSubm
        [SEv.arrive [⟨1, "shell", false, TStatus.cancelled, some ["cancelled-result"], "p1"⟩]]).processedBatches
        = [[⟨1, "shell", false, TStatus.cancelled, some ["cancelled-result"], "p1"⟩]]
      ∧ (runSubm initSubm
          [SEv.arrive
            [⟨1, "shell", false, TStatus.cancelled, some ["cancelled-result"], "p1"⟩]]).awaiting
        = none
      ∧ (runSubm initSubm
          [SEv.arrive
            [⟨1, "shell", false, TStatus.cancelled, some ["cancelled-result"], "p1"⟩]]).inProgress
        = true := by
  refine ⟨by decide, by decide, by decide⟩

/-- C3 amended: the lock is released — and a batch queued during the pass
is handed to the deferred timer — only when the pass actually issued a
continuation attempt and that attempt finishes; a pass that exits early
(no ready backend-targeted calls, all backend-targeted calls cancelled,
or model switched after a quota error) keeps the lock and defers
nothing. -/
theorem c3_amended :
    (∀ (s : SubmState) (a : List ToolCall), s.awaiting = some a →
        (submStep s SEv.contDone).inProgress = false
          ∧ (submStep s SEv.contDone).awaiting = none
          ∧ (∀ p, s.pendingSlot = some p →
              (submStep s SEv.contDone).pendingSlot = none
                ∧ (submStep s SEv.contDone).timerQueue = s.timerQueue ++ [p])
          ∧ (s.pendingSlot = none →
              (submStep s SEv.contDone).timerQueue = s.timerQueue))
      ∧ (∀ (s : SubmState) (batch : List ToolCall),
          s.inProgress = false → s.awaiting = none →
          (geminiReady batch = []
              ∨ (geminiReady batch).all (fun tc => tc.status = TStatus.cancelled) = true
              ∨ s.quotaSwitched = true) →
            (handleCompletedTools s batch).inProgress = true
              ∧ (handleCompletedTools s batch).awaiting = none) := by
  constructor
  · intro s a ha
    cases hp : s.pendingSlot with
    | some p =>
        refine ⟨?_, ?_, ?_, ?_⟩ <;> simp [submStep, ha, hp]
    | none =>
        refine ⟨?_, ?_, ?_, ?_⟩ <;> simp [submStep, ha, hp]
  · intro s batch hIn hAw hearly
    have hguard : (s.awaiting.isSome || s.inProgress) = false := by
      rw [hAw, hIn]
      rfl
    rw [handleCompletedTools_body s batch hguard]
    have hA := markClientSubmitted_fields
      { s with inProgress := true, processedBatches := s.processedBatches ++ [batch] }
      (readyToSubmit batch)
    have hB := refreshMemory_fields
      (markClientSubmitted
        { s with inProgress := true, processedBatches := s.processedBatches ++ [batch] }
        (readyToSubmit batch))
      (readyToSubmit batch)
    constructor
    · rw [submitGemini_inProgress, hB.2.2.2.1, hA.2.2.2.1]
    · rw [submitGemini_awaiting_early, hB.2.1, hA.2.1]
      · exact hAw
      · rcases hearly with h | h | h
        · exact Or.inl h
        · exact Or.inr (Or.inl h)
        · refine Or.inr (Or.inr ?_)
          rw [hB.2.2.2.2.2.2.2.2.1, hA.2.2.2.2.2.2.2.2.1]
          exact h

/-- C3 witness: completing an awaited continuation releases the lock and
defers the queued batch; and a concrete all-cancelled pass keeps the
lock. -/
theorem c3_witness :
    (submStep
        ⟨true, some [⟨2, "read_file", false, TStatus.success, some ["ok"], "p1"⟩],
          some [⟨1, "shell", false, TStatus.cancelled, some ["r"], "p1"⟩],
          [], [], [], [], [], [], [], [], 0, false⟩
        SEv.contDone).inProgress = false
      ∧ (submStep
          ⟨true, some [⟨2, "read_file", false, TStatus.success, some ["ok"], "p1"⟩],
            some [⟨1, "shell", false, TStatus.cancelled, some ["r"], "p1"⟩],
            [], [], [], [], [], [], [], [], 0, false⟩
          SEv.contDone).timerQueue
        = [[⟨2, "read_file", false, TStatus.success, some ["ok"], "p1"⟩]]
      ∧ (handleCompletedTools initSubm
          [⟨1, "shell", false, TStatus.cancelled, some ["r"], "p1"⟩]).inProgress = true := by
  have h1 := (c3_amended).1
    ⟨true, some [⟨2, "read_file", false, TStatus.success, some ["ok"], "p1"⟩],
      some [⟨1, "shell", false, TStatus.cancelled, some ["r"], "p1"⟩],
      [], [], [], [], [], [], [], [], 0, false⟩
    [⟨1, "shell", false, TStatus.cancelled, some ["r"], "p1"⟩] rfl
  have h2 := (c3_amended).2 initSubm
    [⟨1, "shell", false, TStatus.cancelled, some ["r"], "p1"⟩]
    rfl rfl (Or.inr (Or.inl (by decide)))
  refine ⟨h1.1, ?_, h2.1⟩
  have h3 := h1.2.2.1 [⟨2, "read_file", false, TStatus.success, some ["ok"], "p1"⟩] rfl
  exact h3.2

/-- While the lock is held, no step starts a new submission pass. -/
theorem submStep_processed_of_locked (s : SubmState) (e : SEv) (h : s.inProgress = true) :
    (submStep s e).processedBatches = s.processedBatches := by
  cases e with
  | arrive b =>
    by_cases hb : b = []
    · simp [submStep, onComplete, hb]
    · simp [submStep, onComplete, hb, h]
  | contDone =>
    cases ha : s.awaiting with
    | none => simp [submStep, ha]
    | some a =>
      cases hp : s.pendingSlot <;> simp [submStep, ha, hp]
  | timerFire =>
    cases ht : s.timerQueue with
    | nil => simp [submStep, ht]
    | cons p rest =>
      simp only [submStep, ht]
      rw [handleCompletedTools_guard]
      rw [Bool.or_eq_true]
      exact Or.inr h

/-- A stuck lock (held with no continuation in flight) stays stuck. -/
theorem submStep_stuck (s : SubmState) (e : SEv)
    (h1 : s.inProgress = true) (h2 : s.awaiting = none) :
    (submStep s e).inProgress = true ∧ (submStep s e).awaiting = none := by
  cases e with
  | arrive b =>
    by_cases hb : b = []
    · simp [submStep, onComplete, hb, h1, h2]
    · simp [submStep, onComplete, hb, h1, h2]
  | contDone => simp [submStep, h1, h2]
  | timerFire =>
    cases ht : s.timerQueue with
    | nil => simp [submStep, ht, h1, h2]
    | cons p rest =>
      simp only [submStep, ht]
      rw [handleCompletedTools_guard]
      · exact ⟨h1, h2⟩
      · rw [Bool.or_eq_true]
        exact Or.inr h1

/-- Once the lock is stuck, no sequence of events ever processes another
batch. -/
theorem runSubm_stuck (evs : List SEv) : ∀ (s : SubmState),
    s.inProgress = true → s.awaiting = none →
      (runSubm s evs).processedBatches = s.processedBatches
        ∧ (runSubm s evs).inProgress = true ∧ (runSubm s evs).awaiting = none := by
  induction evs with
  | nil => exact fun s h1 h2 => ⟨rfl, h1, h2⟩
  | cons e evs ih =>
    intro s h1 h2
    have hs := submStep_stuck s e h1 h2
    have hp := submStep_processed_of_locked s e h1
    have hall := ih (submStep s e) hs.1 hs.2
    exact ⟨hall.1.trans hp, hall.2.1, hall.2.2⟩

/-- A submission pass adds its batch exactly once to the in-flight
accounting (to the processed list or to the guard-dropped list) and moves
nothing else. -/
theorem handleCompletedTools_inFlight (s : SubmState) (batch b : List ToolCall) :
    (inFlight (handleCompletedTools s batch)).count b
      = (inFlight s).count b + ([batch].count b) := by
  by_cases hg : (s.awaiting.isSome || s.inProgress) = true
  · rw [handleCompletedTools_guard s batch hg]
    have h : inFlight { s with guardDropped := s.guardDropped ++ [batch] }
        = s.processedBatches ++ (s.guardDropped ++ [batch]) ++ s.timerQueue
            ++ s.pendingSlot.toList := rfl
    rw [h, inFlight]
    simp only [List.count_append]
    omega
  · have hg2 : (s.awaiting.isSome || s.inProgress) = false := by
      cases hx : (s.awaiting.isSome || s.inProgress)
      · rfl
      · exact absurd hx hg
    rw [handleCompletedTools_body s batch hg2]
    obtain ⟨-, -, -, -, ha5, ha6, ha7, ha8, -, -⟩ := markClientSubmitted_fields
      { s with inProgress := true, processedBatches := s.processedBatches ++ [batch] }
      (readyToSubmit batch)
    obtain ⟨-, -, -, -, hb5, hb6, hb7, hb8, -, -⟩ := refreshMemory_fields
      (markClientSubmitted
        { s with inProgress := true, processedBatches := s.processedBatches ++ [batch] }
        (readyToSubmit batch))
      (readyToSubmit batch)
    obtain ⟨hq1, hq2, hq3, hq4, -⟩ := submitGemini_queues
      (refreshMemory
        (markClientSubmitted
          { s with inProgress := true, processedBatches := s.processedBatches ++ [batch] }
          (readyToSubmit batch))
        (readyToSubmit batch))
      ((readyToSubmit batch).filter (fun tc => !tc.isClientInitiated)) batch
    simp only [inFlight, hq1, hq2, hq3, hq4, hb5, hb6, hb7, hb8, ha5, ha6, ha7, ha8]
    simp only [List.count_append]
    omega

/-- One step never grows the in-flight count of a batch by more than its
own arrivals. -/
theorem submStep_inFlight (s : SubmState) (e : SEv) (b : List ToolCall) :
    (inFlight (submStep s e)).count b ≤ (inFlight s).count b + (arrivals [e]).count b := by
  cases e with
  | arrive c =>
    by_cases hc : c = []
    · simp only [submStep, onComplete, if_pos hc]
      omega
    · simp only [submStep, onComplete, if_neg hc]
      by_cases hip : ({ s with displayed := s.displayed ++ [c] } : SubmState).inProgress = true
      · rw [if_pos hip]
        simp [inFlight, List.count_append, arrivals]
        omega
      · rw [if_neg hip]
        rw [handleCompletedTools_inFlight]
        have : inFlight { s with displayed := s.displayed ++ [c] } = inFlight s := rfl
        rw [this]
        have harr : arrivals [SEv.arrive c] = [c] := rfl
        rw [harr]
  | contDone =>
    cases ha : s.awaiting with
    | none =>
      simp [submStep, ha]
    | some a =>
      cases hp : s.pendingSlot with
      | none => simp [submStep, ha, hp, inFlight]
      | some p =>
        simp [submStep, ha, hp, inFlight, List.count_append]
  | timerFire =>
    cases ht : s.timerQueue with
    | nil => simp [submStep, ht]
    | cons p rest =>
      simp only [submStep, ht]
      rw [handleCompletedTools_inFlight]
      have : inFlight { s with timerQueue := rest }
          = s.processedBatches ++ s.guardDropped ++ rest ++ s.pendingSlot.toList := rfl
      rw [this]
      simp only [inFlight, ht]
      simp [List.count_append, List.count_cons, arrivals]
      omega

/-- Across any event sequence, a batch is in flight at most as often as
it arrived. -/
theorem runSubm_inFlight (evs : List SEv) : ∀ (s : SubmState) (b : List ToolCall),
    (inFlight (runSubm s evs)).count b ≤ (inFlight s).count b + (arrivals evs).count b := by
  induction evs with
  | nil =>
    intro s b
    simp [runSubm, arrivals]
  | cons e evs ih =>
    intro s b
    have h1 := submStep_inFlight s e b
    have h2 := ih (submStep s e) b
    have harr : arrivals (e :: evs) = arrivals [e] ++ arrivals evs := by
      cases e <;> rfl
    calc (inFlight (runSubm (submStep s e) evs)).count b
        ≤ (inFlight (submStep s e)).count b + (arrivals evs).count b := h2
      _ ≤ ((inFlight s).count b + (arrivals [e]).count b) + (arrivals evs).count b := by omega
      _ = (inFlight s).count b + (arrivals (e :: evs)).count b := by
          rw [harr, List.count_append]
          omega

theorem nodup_of_count_le_one {α : Type} [BEq α] [LawfulBEq α] {l : List α}
    (h : ∀ a : α, l.count a ≤ 1) : l.Nodup := by
  induction l with
  | nil => exact List.nodup_nil
  | cons a l ih =>
    rw [List.nodup_cons]
    constructor
    · intro hmem
      have hc := h a
      rw [List.count_cons_self] at hc
      have hz : l.count a = 0 := by omega
      rw [List.count_eq_zero] at hz
      exact hz hmem
    · apply ih
      intro b
      have hc := h b
      rw [List.count_cons] at hc
      split at hc <;> omega

theorem count_le_one_of_nodup {α : Type} [BEq α] [LawfulBEq α] {l : List α}
    (h : l.Nodup) (a : α) : l.count a ≤ 1 := by
  induction l with
  | nil => simp
  | cons x l ih =>
    rw [List.nodup_cons] at h
    rw [List.count_cons]
    have hrest := ih h.2
    cases hbeq : (x == a) with
    | false => simpa [hbeq] using hrest
    | true =>
      have hxa : x = a := eq_of_beq hbeq
      subst hxa
      have hz : l.count x = 0 := List.count_eq_zero.mpr h.1
      simp [hz]

/-- Distinct arriving batches are each processed at most once. -/
theorem runSubm_processed_nodup (evs : List SEv) (h : (arrivals evs).Nodup) :
    ((runSubm initSubm evs).processedBatches).Nodup := by
  apply nodup_of_count_le_one
  intro b
  have h1 := runSubm_inFlight evs initSubm b
  have h2 : (inFlight initSubm).count b = 0 := rfl
  have h3 : (arrivals evs).count b ≤ 1 := count_le_one_of_nodup h b
  have h4 : ((runSubm initSubm evs).processedBatches).count b
      ≤ (inFlight (runSubm initSubm evs)).count b := by
    refine List.Sublist.count_le ?_ b
    unfold inFlight
    exact ((List.sublist_append_left _ _).trans
      (List.sublist_append_left _ _)).trans (List.sublist_append_left _ _)
  omega

/-- C2 counterexample: batch B1 (all backend calls cancelled) makes the
pass exit early with the lock held; batch B2 arriving next is queued in
the pending slot, and no later event (timer fires, continuation-done
signals) ever processes it — B2 is dropped without being replaced by a
newer batch. -/
theorem c2_counterexample :
    (runSubm initSubm
        [SEv.arrive [⟨1, "shell", false, TStatus.cancelled, some ["cancelled-result"], "p1"⟩],
         SEv.arrive [⟨2, "read_file", false, TStatus.success, some ["ok"], "p1"⟩],
         SEv.timerFire, SEv.contDone, SEv.timerFire]).processedBatches
        = [[⟨1, "shell", false, TStatus.cancelled, some ["cancelled-result"], "p1"⟩]]
      ∧ (runSubm initSubm
          [SEv.arrive [⟨1, "shell", false, TStatus.cancelled, some ["cancelled-result"], "p1"⟩],
           SEv.arrive [⟨2, "read_file", false, TStatus.success, some ["ok"], "p1"⟩],
           SEv.timerFire, SEv.contDone, SEv.timerFire]).pendingSlot
        = some [⟨2, "read_file", false, TStatus.success, some ["ok"], "p1"⟩]
      ∧ (runSubm initSubm
          [SEv.arrive [⟨1, "shell", false, TStatus.cancelled, some ["cancelled-result"], "p1"⟩],
           SEv.arrive [⟨2, "read_file", false, TStatus.success, some ["ok"], "p1"⟩],
           SEv.timerFire, SEv.contDone, SEv.timerFire]).inProgress = true
      ∧ (runSubm initSubm
          [SEv.arrive [⟨1, "shell", false, TStatus.cancelled, some ["cancelled-result"], "p1"⟩],
           SEv.arrive [⟨2, "read_file", false, TStatus.success, some ["ok"], "p1"⟩],
           SEv.timerFire, SEv.contDone, SEv.timerFire]).awaiting = none := by
  refine ⟨by decide, by decide, by decide, by decide⟩

/-- C2 amended: at most one submission pass runs at a time (while the
lock is held no event starts a new pass); a batch arriving mid-pass
replaces the single pending slot; a batch queued during a
continuation-issuing pass is moved to the deferred timer queue exactly
when the continuation completes; distinct settled batches are never
processed twice. However a pass that exits early keeps the lock, after
which no batch is ever processed again — so a queued batch is only
guaranteed processing when every pass issues a continuation. -/
theorem c2_amended :
    (∀ (s : SubmState) (b : List ToolCall), s.inProgress = true → b ≠ [] →
        submStep s (SEv.arrive b)
          = { s with displayed := s.displayed ++ [b], pendingSlot := some b })
      ∧ (∀ (s : SubmState) (a p : List ToolCall),
          s.awaiting = some a → s.pendingSlot = some p →
            submStep s SEv.contDone
              = { s with awaiting := none, inProgress := false, pendingSlot := none,
                         timerQueue := s.timerQueue ++ [p] })
      ∧ (∀ (s : SubmState) (e : SEv), s.inProgress = true →
          (submStep s e).processedBatches = s.processedBatches)
      ∧ (∀ (evs : List SEv) (s : SubmState), s.inProgress = true → s.awaiting = none →
          (runSubm s evs).processedBatches = s.processedBatches)
      ∧ (∀ evs : List SEv, (arrivals evs).Nodup →
          ((runSubm initSubm evs).processedBatches).Nodup) := by
  refine ⟨?_, ?_, ?_, ?_, ?_⟩
  · intro s b h hb
    simp [submStep, onComplete, hb, h]
  · intro s a p ha hp
    simp [submStep, ha, hp]
  · intro s e h
    exact submStep_processed_of_locked s e h
  · intro evs s h1 h2
    exact (runSubm_stuck evs s h1 h2).1
  · intro evs h
    exact runSubm_processed_nodup evs h

/-- C2 witness at concrete inputs: mid-pass arrival replaces the pending
slot; continuation completion defers the queued batch; a held lock blocks
processing across a whole event sequence; a duplicate-free arrival list
yields duplicate-free processing. -/
theorem c2_witness :
    (submStep
        ⟨true, some [⟨3, "ls", false, TStatus.success, some ["x"], "p"⟩], none,
          [], [], [], [], [], [], [], [], 0, false⟩
        (SEv.arrive [⟨2, "read_file", false, TStatus.success, some ["ok"], "p1"⟩])).pendingSlot
        = some [⟨2, "read_file", false, TStatus.success, some ["ok"], "p1"⟩]
      ∧ (submStep
          ⟨true, some [⟨3, "ls", false, TStatus.success, some ["x"], "p"⟩],
            some [⟨1, "shell", false, TStatus.cancelled, some ["r"], "p1"⟩],
            [], [], [], [], [], [], [], [], 0, false⟩
          SEv.contDone).timerQueue
        = [[⟨3, "ls", false, TStatus.success, some ["x"], "p"⟩]]
      ∧ (runSubm
          ⟨true, none, none, [], [], [], [], [], [], [], [], 0, false⟩
          [SEv.arrive [⟨2, "read_file", false, TStatus.success, some ["ok"], "p1"⟩],
           SEv.timerFire]).processedBatches = []
      ∧ ((runSubm initSubm
          [SEv.arrive [⟨2, "read_file", false, TStatus.success, some ["ok"], "p1"⟩]]).processedBatches).Nodup := by
  refine ⟨?_, ?_, ?_, ?_⟩
  · have h := (c2_amended).1
      ⟨true, some [⟨3, "ls", false, TStatus.success, some ["x"], "p"⟩], none,
        [], [], [], [], [], [], [], [], 0, false⟩
      [⟨2, "read_file", false, TStatus.success, some ["ok"], "p1"⟩] rfl (by decide)
    rw [h]
  · have h := (c2_amended).2.1
      ⟨true, some [⟨3, "ls", false, TStatus.success, some ["x"], "p"⟩],
        some [⟨1, "shell", false, TStatus.cancelled, some ["r"], "p1"⟩],
        [], [], [], [], [], [], [], [], 0, false⟩
      [⟨1, "shell", false, TStatus.cancelled, some ["r"], "p1"⟩]
      [⟨3, "ls", false, TStatus.success, some ["x"], "p"⟩] rfl rfl
    rw [h]
    decide
  · exact (c2_amended).2.2.2.1
      [SEv.arrive [⟨2, "read_file", false, TStatus.success, some ["ok"], "p1"⟩],
       SEv.timerFire]
      ⟨true, none, none, [], [], [], [], [], [], [], [], 0, false⟩ rfl rfl
  · exact (c2_amended).2.2.2.2
      [SEv.arrive [⟨2, "read_file", false, TStatus.success, some ["ok"], "p1"⟩]]
      (by decide)

theorem isPrefixOf_nil_left (s : Str) : List.isPrefixOf ([] : Str) s = true := by
  cases s <;> rfl

theorem applyFragment_of_prefix (buffer s : Str) (h : buffer.isPrefixOf s = true) :
    applyFragment buffer s = s := by
  by_cases hs : s = []
  · subst hs
    have hb : buffer = [] := List.prefix_nil.mp (List.isPrefixOf_iff_prefix.mp h)
    rw [hb]
    rfl
  · simp [applyFragment, hs, h]

theorem applyFragment_delta (buffer s : Str)
    (h : s = [] ∨ buffer.isPrefixOf s = false ∨ buffer = []) :
    applyFragment buffer s = buffer ++ s := by
  rcases h with h | h | h
  · subst h
    simp [applyFragment]
  · by_cases hs : s = []
    · subst hs
      simp [applyFragment]
    · simp [applyFragment, hs, h]
  · subst h
    by_cases hs : s = []
    · subst hs
      rfl
    · simp [applyFragment, hs, isPrefixOf_nil_left]

theorem flushNonGemini_ok (pending : Option PendingItem) (h : pendingOk pending) :
    (flushNonGemini pending).2.1 = []
      ∧ ((flushNonGemini pending).1.kind = PendingKind.gemini
          ∨ (flushNonGemini pending).1.kind = PendingKind.geminiContent) := by
  cases pending with
  | none => exact ⟨rfl, Or.inl rfl⟩
  | some p =>
    have hk : p.kind = PendingKind.gemini ∨ p.kind = PendingKind.geminiContent := h
    constructor
    · simp [flushNonGemini, if_pos hk]
    · simpa [flushNonGemini, if_pos hk] using hk

/-- On a safely-split fragment, the content committed by one
`handleContentEvent` call together with the returned buffer is exactly
the applied fragment result, and the pending item stays a content item. -/
theorem handleContentEvent_reconstruct (split : Str → Nat) (s buffer : Str)
    (pending : Option PendingItem) (hok : pendingOk pending)
    (hsafe : splitSafe split buffer pending s = true) :
    ((handleContentEvent split false s buffer pending).added.map PendingItem.text).flatten
        ++ (handleContentEvent split false s buffer pending).buffer
      = applyFragment buffer s
      ∧ pendingOk (handleContentEvent split false s buffer pending).pending := by
  by_cases hs : s = []
  · subst hs
    constructor
    · simp [handleContentEvent, applyFragment]
    · simpa [handleContentEvent] using hok
  · by_cases hb : applyFragment buffer s = buffer
    · constructor
      · simp [handleContentEvent, hs, hb]
      · simpa [handleContentEvent, hs, hb] using hok
    · obtain ⟨hfl, hflkind⟩ := flushNonGemini_ok pending hok
      have hsafe2 : (decide (split (applyFragment buffer s) = (applyFragment buffer s).length)
          || decide ((applyFragment buffer s).take (split (applyFragment buffer s)) = [])
          || decide ((applyFragment buffer s).take (split (applyFragment buffer s))
              ≠ (flushNonGemini pending).1.text)) = true := by
        simpa [splitSafe, hs, hb] using hsafe
      by_cases hsp : split (applyFragment buffer s) = (applyFragment buffer s).length
      · by_cases hu : shouldUpdatePending (flushNonGemini pending).1.text
            (applyFragment buffer s) = true
        · constructor
          · simp [handleContentEvent, hs, hb, hsp, hu, hfl]
          · simp only [handleContentEvent, hs, hb, hsp, hu]
            simpa [pendingOk, hs, hb, hsp, hu] using hflkind
        · constructor
          · simp [handleContentEvent, hs, hb, hsp, hu, hfl]
          · simp only [handleContentEvent, hs, hb, hsp, hu]
            simpa [pendingOk, hs, hb, hsp, hu] using hflkind
      · have hor : (applyFragment buffer s).take (split (applyFragment buffer s)) = []
            ∨ (applyFragment buffer s).take (split (applyFragment buffer s))
              ≠ (flushNonGemini pending).1.text := by
          rw [Bool.or_eq_true, Bool.or_eq_true] at hsafe2
          rcases hsafe2 with (h1 | h2) | h3
          · exact absurd (of_decide_eq_true h1) hsp
          · exact Or.inl (of_decide_eq_true h2)
          · exact Or.inr (of_decide_eq_true h3)
        by_cases hbe : (applyFragment buffer s).take (split (applyFragment buffer s)) = []
        · constructor
          · simp [handleContentEvent, hs, hb, hsp, hbe, hfl]
            rcases List.take_eq_nil_iff.mp hbe with h0 | h0
            · rw [h0, List.drop_zero]
            · rw [h0]
              simp
          · simp [handleContentEvent, hs, hb, hsp, hbe, pendingOk]
        · have hne : (applyFragment buffer s).take (split (applyFragment buffer s))
              ≠ (flushNonGemini pending).1.text := hor.resolve_left hbe
          constructor
          · simp [handleContentEvent, hs, hb, hsp, hbe, hne, hfl]
          · simp [handleContentEvent, hs, hb, hsp, hbe, hne, pendingOk]

/-- One delivery-disciplined fragment advances the reconstruction exactly
as intended. -/
theorem stepContent_reconstruct (split : Str → Nat) (st : TurnContent) (f : Frag)
    (h1 : pendingOk st.pending) (hstep : okStepB split st f = true) :
    reconstruct (stepContent split st f.payload) = intendedStep (reconstruct st) f
      ∧ pendingOk (stepContent split st f.payload).pending := by
  have hgen : ∀ s : Str, splitSafe split st.buffer st.pending s = true →
      reconstruct (stepContent split st s)
        = committedText st ++ applyFragment st.buffer s
        ∧ pendingOk (stepContent split st s).pending := by
    intro s hsafe
    have hr := handleContentEvent_reconstruct split s st.buffer st.pending h1 hsafe
    constructor
    · simp only [stepContent, reconstruct, committedText, List.map_append,
        List.flatten_append, List.append_assoc]
      rw [hr.1]
    · exact hr.2
  cases f with
  | delta s =>
    simp only [okStepB, Bool.and_eq_true] at hstep
    obtain ⟨hcond, hsafe⟩ := hstep
    have hc : s = [] ∨ st.buffer.isPrefixOf s = false ∨ st.buffer = [] := by
      rw [Bool.or_eq_true, Bool.or_eq_true] at hcond
      rcases hcond with (h1 | h2) | h3
      · exact Or.inl (of_decide_eq_true h1)
      · refine Or.inr (Or.inl ?_)
        rwa [Bool.not_eq_true'] at h2
      · exact Or.inr (Or.inr (of_decide_eq_true h3))
    have hg := hgen s hsafe
    have happ := applyFragment_delta st.buffer s hc
    constructor
    · show reconstruct (stepContent split st s) = reconstruct st ++ s
      rw [hg.1, happ]
      exact (List.append_assoc _ _ _).symm
    · exact hg.2
  | snapshot s =>
    simp only [okStepB, Bool.and_eq_true] at hstep
    obtain ⟨⟨hcomm, hpre⟩, hsafe⟩ := hstep
    have hg := hgen s hsafe
    have happ := applyFragment_of_prefix st.buffer s hpre
    have hcm : committedText st = [] := of_decide_eq_true hcomm
    constructor
    · show reconstruct (stepContent split st s) = s
      rw [hg.1, happ, hcm]
      rfl
    · exact hg.2

/-- Reconstruction across a whole delivery-disciplined fragment list. -/
theorem runContent_reconstruct (split : Str → Nat) (fs : List Frag) :
    ∀ st : TurnContent, pendingOk st.pending → okRunB split st fs = true →
      reconstruct (runContent split st (fs.map Frag.payload))
        = intendedText (reconstruct st) fs := by
  induction fs with
  | nil =>
    intro st h1 h2
    rfl
  | cons f fs ih =>
    intro st h1 h2
    simp only [okRunB, Bool.and_eq_true] at h2
    obtain ⟨hstep, hrest⟩ := h2
    have hsc := stepContent_reconstruct split st f h1 hstep
    have hih := ih (stepContent split st f.payload) hsc.2 hrest
    show reconstruct (runContent split (stepContent split st f.payload) (fs.map Frag.payload))
      = intendedText (reconstruct st) (f :: fs)
    rw [hih, hsc.1]
    rfl

/-- C1 counterexample: the fragments `ab`, `abc`, both delivered as pure
incremental deltas, have intended concatenation `ababc`; but because the
second delta happens to start with the current buffer `ab`, the prefix
test misclassifies it as a full-accumulated snapshot, and the final
buffer state reconstructs only `abc`. -/
theorem c1_counterexample :
    reconstruct (runContent findLastSafeSplitPoint initContent
          ([Frag.delta ("ab".data), Frag.delta ("abc".data)].map Frag.payload))
        = "abc".data
      ∧ intendedText [] [Frag.delta ("ab".data), Frag.delta ("abc".data)] = "ababc".data
      ∧ "abc".data ≠ "ababc".data := by
  refine ⟨by decide, by decide, by decide⟩

/-- C1 amended: the final buffer state (committed splits together with
the open buffer) reconstructs exactly the intended text T, provided the
delivery is unambiguous for the code's prefix test: a non-empty delta
never starts with the current non-empty buffer, each snapshot arrives
while no text has been committed and extends the open buffer, and no
split commits a prefix equal to the pending item's displayed text (which
the transcript-append guard would silently drop). -/
theorem c1_amended (split : Str → Nat) (fs : List Frag)
    (h : okRunB split initContent fs = true) :
    reconstruct (runContent split initContent (fs.map Frag.payload)) = intendedText [] fs :=
  runContent_reconstruct split fs initContent trivial h

/-- C1 witness: the spec scenario — `Hel` as a delta, then `Hello` and
`Hello wo` as full-accumulated snapshots — reconstructs `Hello wo`. -/
theorem c1_witness :
    okRunB findLastSafeSplitPoint initContent
        [Frag.delta ("Hel".data), Frag.snapshot ("Hello".data),
          Frag.snapshot ("Hello wo".data)] = true
      ∧ reconstruct (runContent findLastSafeSplitPoint initContent
          ([Frag.delta ("Hel".data), Frag.snapshot ("Hello".data),
            Frag.snapshot ("Hello wo".data)].map Frag.payload))
        = "Hello wo".data := by
  refine ⟨by decide, ?_⟩
  have h := c1_amended findLastSafeSplitPoint
    [Frag.delta ("Hel".data), Frag.snapshot ("Hello".data),
      Frag.snapshot ("Hello wo".data)] (by decide)
  rw [h]
  decide

end GeminiCLI
